/-
Verification of the pdf-wtf document-processing pipeline.

Shallow embedding of the Python sources (src/pdfwtf/utils.py,
src/pdfwtf/pipeline.py, src/pdfwtf/unpaper_run.py, src/pdfwtf/utils/analyze.py)
into Lean 4, together with theorems settling the specification claims about
the page-range algebra, the document classifiers, the workspace path
resolution, the identifier post-processing, the raster-export stage, the
page-extraction stage and the OCR option plumbing.

Modelling conventions:
* Python functions that either return a value or raise become functions into
  `Except String _` (the string is the exception message).
* Python `str` is Lean `String`; character classes of the `re` module
  (`\d`, `\w`, `\s`) are modelled over their ASCII meaning.
* Python `int(...)` is modelled for optionally signed decimal literals with
  surrounding whitespace (the only shapes the call sites can produce).
* Stateful filesystem code is modelled by explicit state passing over a map
  from path strings to file contents.
-/
import Mathlib

namespace PdfWtf

instance instDecEqExcept {ε α : Type} [DecidableEq ε] [DecidableEq α] :
    DecidableEq (Except ε α) := fun x y =>
  match x, y with
  | .ok a, .ok b =>
    if h : a = b then .isTrue (by rw [h]) else
      .isFalse (fun hc => h (by cases hc; rfl))
  | .ok _, .error _ => .isFalse (fun hc => Except.noConfusion hc)
  | .error _, .ok _ => .isFalse (fun hc => Except.noConfusion hc)
  | .error a, .error b =>
    if h : a = b then .isTrue (by rw [h]) else
      .isFalse (fun hc => h (by cases hc; rfl))

/-! ## Character-level string helpers (models of Python str methods) -/

/-- Model of Python `str.split(sep)` for a one-character separator, over the
character list of the string.  `"".split(",") == [""]` holds in Python and in
this model. -/
def splitOnChar (sep : Char) : List Char → List (List Char)
  | [] => [[]]
  | c :: rest =>
    let r := splitOnChar sep rest
    if c = sep then [] :: r
    else
      match r with
      | h :: t => (c :: h) :: t
      | [] => [[c]]

theorem splitOnChar_ne_nil (sep : Char) (cs : List Char) :
    splitOnChar sep cs ≠ [] := by
  induction cs with
  | nil => simp [splitOnChar]
  | cons c rest ih =>
    simp only [splitOnChar]
    split
    · simp
    · cases h : splitOnChar sep rest with
      | nil => exact absurd h ih
      | cons a t => simp

theorem splitOnChar_of_not_mem (sep : Char) (cs : List Char)
    (h : sep ∉ cs) : splitOnChar sep cs = [cs] := by
  induction cs with
  | nil => rfl
  | cons c rest ih =>
    simp only [List.mem_cons, not_or] at h
    simp only [splitOnChar, ih h.2]
    have : ¬ c = sep := fun hc => h.1 hc.symm
    simp [this]

/-- Decimal value of a digit run; `none` if empty or a non-digit occurs.
Helper for the model of Python `int`. -/
def digitsVal (cs : List Char) : Option Nat :=
  if cs ≠ [] ∧ cs.all Char.isDigit then
    some (cs.foldl (fun acc c => acc * 10 + (c.toNat - 48)) 0)
  else none

/-- Model of Python `int(s)`: strips surrounding whitespace, accepts an
optional single sign followed by a non-empty digit run. -/
def pyInt (cs : List Char) : Option Int :=
  let t := ((cs.dropWhile Char.isWhitespace).reverse.dropWhile
      Char.isWhitespace).reverse
  match t with
  | '-' :: ds => (digitsVal ds).map (fun n => -(n : Int))
  | '+' :: ds => (digitsVal ds).map (fun n => (n : Int))
  | ds => (digitsVal ds).map (fun n => (n : Int))

/-! ## Page-range algebra: utils.py `parse_page_ranges` (lines 110-130) -/

/-- Python `range(a, b + 1)` over integers, as a list. -/
def intRange (a b : Int) : List Int :=
  (List.range (b + 1 - a).toNat).map (fun i => a + (i : Int))

/-- One comma-separated token of the page-selector expression
(the body of the `for part in pages_str.split(",")` loop). -/
def parseToken (part : List Char) (total : Int) : Except String (List Int) :=
  if part.contains '-' then
    match splitOnChar '-' part with
    | [s1, s2] =>
      match pyInt s1 with
      | none => .error ("invalid literal for int() with base 10: " ++ String.mk s1)
      | some a =>
        match (if s2 = [] then some total else pyInt s2) with
        | none => .error ("invalid literal for int() with base 10: " ++ String.mk s2)
        | some b => .ok (intRange a b)
    | _ => .error "too many values to unpack (expected 2)"
  else
    match pyInt part with
    | none => .error ("invalid literal for int() with base 10: " ++ String.mk part)
    | some page =>
      if page > total then
        .error ("Page " ++ toString page ++ " is out of range (1-" ++
          toString total ++ ")")
      else .ok [page]

/-- Ordered duplicate-free insertion into an ascending list.  The Python code
accumulates pages in a `set` and applies `sorted` at the end; maintaining a
strictly ascending list under insertion yields exactly that result. -/
def insertPage (x : Int) : List Int → List Int
  | [] => [x]
  | y :: t => if x < y then x :: y :: t else if x = y then y :: t else y :: insertPage x t

/-- `pages.update(...)` / `pages.add(...)`: insert all pages of one token. -/
def insertPages (pl : List Int) (acc : List Int) : List Int :=
  pl.foldl (fun a x => insertPage x a) acc

/-- The accumulation of `pages` (a Python `set`) across the token loop. -/
def collectPages : List (List Char) → Int → List Int → Except String (List Int)
  | [], _, acc => .ok acc
  | part :: rest, total, acc =>
    match parseToken part total with
    | .error e => .error e
    | .ok pl => collectPages rest total (insertPages pl acc)

/-- utils.py `parse_page_ranges(pages_str, total_pages=None)`.
`total_pages = none` models the Python default `None`. -/
def parse_page_ranges (pages_str : String) (total_pages : Option Int) :
    Except String (List Int) :=
  match total_pages with
  | none => .error "total_pages must be specified for open-ended ranges"
  | some total => collectPages (splitOnChar ',' pages_str.data) total []

/-- The pages a single token resolves to (empty when the token errors);
used to state which page indices an expression mentions. -/
def tokenPagesOf (part : List Char) (total : Int) : List Int :=
  match parseToken part total with
  | .ok pl => pl
  | .error _ => []

theorem mem_insertPage {y x : Int} {l : List Int} :
    y ∈ insertPage x l ↔ y = x ∨ y ∈ l := by
  induction l with
  | nil => simp [insertPage]
  | cons a t ih =>
    simp only [insertPage]
    split
    · simp [List.mem_cons]
    · split
      · rename_i h1 h2
        subst h2
        simp [List.mem_cons]
      · simp only [List.mem_cons, ih]
        tauto

theorem sorted_insertPage {x : Int} {l : List Int}
    (h : l.Sorted (· < ·)) : (insertPage x l).Sorted (· < ·) := by
  induction l with
  | nil => simp [insertPage]
  | cons a t ih =>
    rw [List.sorted_cons] at h
    simp only [insertPage]
    split
    · rename_i hlt
      rw [List.sorted_cons]
      refine ⟨?_, (List.sorted_cons).2 h⟩
      intro b hb
      rcases List.mem_cons.1 hb with hb | hb
      · exact hb ▸ hlt
      · exact lt_trans hlt (h.1 b hb)
    · split
      · exact (List.sorted_cons).2 h
      · rename_i hlt heq
        rw [List.sorted_cons]
        refine ⟨?_, ih h.2⟩
        intro b hb
        rcases mem_insertPage.1 hb with hb | hb
        · subst hb
          exact lt_of_le_of_ne (not_lt.1 hlt) (fun hc => heq hc.symm)
        · exact h.1 b hb

theorem mem_insertPages {y : Int} {pl acc : List Int} :
    y ∈ insertPages pl acc ↔ y ∈ pl ∨ y ∈ acc := by
  induction pl generalizing acc with
  | nil => simp [insertPages]
  | cons a t ih =>
    simp only [insertPages, List.foldl_cons] at *
    rw [ih]
    simp only [List.mem_cons, mem_insertPage]
    tauto

theorem sorted_insertPages {pl acc : List Int}
    (h : acc.Sorted (· < ·)) : (insertPages pl acc).Sorted (· < ·) := by
  induction pl generalizing acc with
  | nil => exact h
  | cons a t ih =>
    simp only [insertPages, List.foldl_cons] at *
    exact ih (sorted_insertPage h)

theorem collectPages_ok_sorted {parts : List (List Char)} {total : Int}
    {acc l : List Int} (hacc : acc.Sorted (· < ·))
    (h : collectPages parts total acc = .ok l) : l.Sorted (· < ·) := by
  induction parts generalizing acc with
  | nil =>
    simp only [collectPages] at h
    cases h
    exact hacc
  | cons part rest ih =>
    simp only [collectPages] at h
    cases hp : parseToken part total with
    | error e => rw [hp] at h; cases h
    | ok pl =>
      rw [hp] at h
      exact ih (sorted_insertPages hacc) h

theorem collectPages_ok_mem {parts : List (List Char)} {total : Int}
    {acc l : List Int} (h : collectPages parts total acc = .ok l)
    {y : Int} (hy : y ∈ l) :
    y ∈ acc ∨ ∃ part ∈ parts, y ∈ tokenPagesOf part total := by
  induction parts generalizing acc with
  | nil =>
    simp only [collectPages] at h
    cases h
    exact Or.inl hy
  | cons part rest ih =>
    simp only [collectPages] at h
    cases hp : parseToken part total with
    | error e => rw [hp] at h; cases h
    | ok pl =>
      rw [hp] at h
      rcases ih h with hm | ⟨q, hq, hyq⟩
      · rcases mem_insertPages.1 hm with hm | hm
        · exact Or.inr ⟨part, List.mem_cons_self _ _, by simp [tokenPagesOf, hp, hm]⟩
        · exact Or.inl hm
      · exact Or.inr ⟨q, List.mem_cons_of_mem _ hq, hyq⟩

/-- C3: for every valid `(expr, total_pages)` input (valid meaning every page
index any token resolves to lies within `[1, total_pages]`), a successful
`parse_page_ranges expr total_pages` returns a strictly ascending list of
unique integers within `[1, total_pages]`; moreover
`parse("1-3,5", 10) = [1,2,3,5]`, `parse("3-", 6) = [3,4,5,6]`, and
`parse("1-2,5,7-", 8) = [1,2,5,7,8]`. -/
theorem parse_page_ranges_ascending_bounded :
    (∀ (expr : String) (total : Int) (l : List Int),
        parse_page_ranges expr (some total) = Except.ok l →
        l.Sorted (· < ·) ∧
        ((∀ part ∈ splitOnChar ',' expr.data,
            ∀ x ∈ tokenPagesOf part total, 1 ≤ x ∧ x ≤ total) →
          ∀ x ∈ l, 1 ≤ x ∧ x ≤ total)) ∧
    parse_page_ranges "1-3,5" (some 10) = Except.ok [1, 2, 3, 5] ∧
    parse_page_ranges "3-" (some 6) = Except.ok [3, 4, 5, 6] ∧
    parse_page_ranges "1-2,5,7-" (some 8) = Except.ok [1, 2, 5, 7, 8] := by
  refine ⟨?_, by decide, by decide, by decide⟩
  intro expr total l h
  simp only [parse_page_ranges] at h
  constructor
  · exact collectPages_ok_sorted (List.sorted_nil) h
  · intro hvalid x hx
    rcases collectPages_ok_mem h hx with hm | ⟨part, hpart, hxp⟩
    · simp at hm
    · exact hvalid part hpart x hxp

/-- Witness for C3 at the concrete input `("1-3,5", 10)`. -/
theorem parse_page_ranges_ascending_bounded_witness :
    List.Sorted (· < ·) [(1 : Int), 2, 3, 5] ∧
      ∀ x ∈ [(1 : Int), 2, 3, 5], 1 ≤ x ∧ x ≤ 10 :=
  have h := parse_page_ranges_ascending_bounded.1 "1-3,5" 10 [1, 2, 3, 5] (by decide)
  ⟨h.1, h.2 (by decide)⟩

/-- C4 counterexample: hyphen-range tokens are never bounds-checked.
`parse_page_ranges "0-3" 10` resolves page 0, violating `1 <= page`, yet
succeeds; `parse_page_ranges "1-20" 10` resolves pages beyond
`total_pages = 10`, yet succeeds.  The claimed out-of-range failure does not
occur for range tokens. -/
theorem parse_page_ranges_range_tokens_unchecked :
    parse_page_ranges "0-3" (some 10) = Except.ok [0, 1, 2, 3] ∧
    parse_page_ranges "1-20" (some 10) = Except.ok
      [1, 2, 3, 4, 5, 6, 7, 8, 9, 10, 11, 12, 13, 14, 15,
        16, 17, 18, 19, 20] := by
  constructor <;> decide

/-- C4 amended: only single-page tokens are bounds-checked, and only against
the upper bound: a lone token whose integer value exceeds `total_pages` makes
`parse_page_ranges` fail with the out-of-range error naming the offending page
and the valid bound.  Range tokens, and single pages below 1, pass
unchecked. -/
theorem parse_page_ranges_single_over_bound_error :
    ∀ (s : List Char) (total p : Int), (',' ∉ s) → ('-' ∉ s) →
      pyInt s = some p → p > total →
      parse_page_ranges (String.mk s) (some total) =
        Except.error ("Page " ++ toString p ++ " is out of range (1-" ++
          toString total ++ ")") := by
  intro s total p hc hd hi hp
  have hdata : (String.mk s).data = s := rfl
  simp only [parse_page_ranges, hdata, splitOnChar_of_not_mem ',' s hc]
  have hcont : s.contains '-' = false := by
    simpa using hd
  simp [collectPages, parseToken, hcont, hd, hi, hp]

/-- Witness for the C4 amended theorem at the spec's own example
`parse("11", 10)`. -/
theorem parse_page_ranges_single_over_bound_error_witness :
    parse_page_ranges "11" (some 10) =
      Except.error "Page 11 is out of range (1-10)" :=
  parse_page_ranges_single_over_bound_error ['1', '1'] 10 11
    (by decide) (by decide) (by decide) (by decide)

/-- C10: `parse_page_ranges` raises whenever `total_pages` is `None`, before
inspecting the expression at all — even for expressions with no open-ended
range token. -/
theorem parse_page_ranges_none_total_always_error :
    ∀ expr : String, parse_page_ranges expr none =
      Except.error "total_pages must be specified for open-ended ranges" :=
  fun _ => rfl

/-- Witness for C10 at the closed-form expression `"1-3,5"`. -/
theorem parse_page_ranges_none_total_always_error_witness :
    parse_page_ranges "1-3,5" none =
      Except.error "total_pages must be specified for open-ended ranges" :=
  parse_page_ranges_none_total_always_error "1-3,5"

/-! ## Document classifiers: utils.py `has_no_text` (lines 101-107) and
utils/analyze.py `is_scanned_or_hybrid` (lines 36-55) -/

/-- A page of an opened PDF, as the classifiers observe it: the extracted text
layer, the page rectangle dimensions, and the bounding-box dimensions of each
embedded image (page.rect and image bboxes are floats in PyMuPDF; they are
modelled as naturals, and the area-ratio test below compares them exactly). -/
structure PdfPage where
  text : String
  width : Nat
  height : Nat
  images : List (Nat × Nat)

/-- utils.py `has_no_text`: the document is "likely scanned" when every page's
extracted text strips to empty (the loop returns `False` at the first page
with non-whitespace text). -/
def has_no_text (doc : List PdfPage) : Bool :=
  doc.all (fun p => p.text.trim.isEmpty)

/-- ASCII model of the `re` word character class `\w`. -/
def isWordChar (c : Char) : Bool := c.isAlphanum || c = '_'

/-- Number of maximal `\w+` runs, i.e. `len(re.findall(r"\w+", text))`. -/
def countWordRunsAux : Bool → List Char → Nat
  | _, [] => 0
  | inWord, c :: t =>
    let w := isWordChar c
    (if w && !inWord then 1 else 0) + countWordRunsAux w t

def countWordRuns (s : String) : Nat := countWordRunsAux false s.data

/-- analyze.py `is_meaningful_text(text, min_chars=30, min_words=5)` at its
default thresholds (the only ones the classifier uses). -/
def is_meaningful_text (text : String) : Bool :=
  let t := text.trim
  if t.length < 30 then false
  else if countWordRuns t < 5 then false
  else true

/-- analyze.py `PAGE_NUMBER_RE = ^\s*[\W_]*\d+[\W_]*\s*$` (ASCII model).
Since `\s ⊆ [\W_]` and `[\W_]` is exactly the non-alphanumeric characters,
a line matches iff it consists of one non-empty digit run surrounded by
non-alphanumeric characters. -/
def pageNumberLine (s : String) : Bool :=
  let rest := s.data.dropWhile (fun c => !c.isAlphanum)
  let ds := rest.takeWhile Char.isDigit
  let tail := rest.dropWhile Char.isDigit
  !ds.isEmpty && tail.all (fun c => !c.isAlphanum)

/-- Model of Python `str.splitlines` for newline-separated text. -/
def splitlines (s : String) : List String :=
  if s.data.isEmpty then []
  else
    let parts := splitOnChar '\n' s.data
    let parts := if s.data.getLast? = some '\n' then parts.dropLast else parts
    parts.map String.mk

/-- analyze.py `page_has_large_image(page, min_area_ratio=0.4)` at its default
threshold: some embedded image's bbox area is at least 0.4 of the page area
(stated exactly as `10 * img_area >= 4 * page_area`). -/
def page_has_large_image (p : PdfPage) : Bool :=
  p.images.any (fun wh => 10 * (wh.1 * wh.2) ≥ 4 * (p.width * p.height))

/-- analyze.py `is_scanned_or_hybrid`: `False` (born-digital) only when some
page has meaningful text after dropping page-number-only lines and no large
image; otherwise `True` (scanned or hybrid). -/
def is_scanned_or_hybrid (doc : List PdfPage) : Bool :=
  !(doc.any (fun p =>
      let lines := (splitlines p.text).filter (fun l => !pageNumberLine l)
      let cleaned := " ".intercalate lines
      is_meaningful_text cleaned && !page_has_large_image p))

/-- C5 counterexample: on a zero-page document neither classifier reports
digital-native.  `has_no_text [] = false` and `is_scanned_or_hybrid [] =
false` would be the claimed digital-native outcomes; both are refuted. -/
theorem zero_page_not_digital_native :
    ¬ (has_no_text ([] : List PdfPage) = false ∧
       is_scanned_or_hybrid ([] : List PdfPage) = false) := by
  decide

/-- C5 amended: both classifier policies classify a zero-page PDF as
scanned (`has_no_text` returns `True`, which the pipeline reads as
"scanned", and `is_scanned_or_hybrid` returns `True`): vacuously there is
no digital-native evidence, so the empty loops fall through to `True`. -/
theorem zero_page_classified_scanned :
    has_no_text ([] : List PdfPage) = true ∧
    is_scanned_or_hybrid ([] : List PdfPage) = true := by
  decide

/-! ## Identifier post-processing: utils.py `get_doi` (lines 353-393).
The claims concern the stage from the detected raw pattern matches onward
(lines 378-393): per-match normalization, first-seen deduplication, and the
drop of truncated matches. -/

/-- Python `other.startswith(m)`. -/
def pyStartsWith (s pre : String) : Bool := pre.data.isPrefixOf s.data

/-- Python `str.rstrip(chars)`: drop trailing characters drawn from `set`. -/
def rstripSet (s : String) (set : List Char) : String :=
  String.mk ((s.data.reverse.dropWhile (set.contains ·)).reverse)

/-- Python `str.lower()` (ASCII model, per character). -/
def pyLower (s : String) : String := String.mk (s.data.map Char.toLower)

/-- Line 378: `m.rstrip(".,;:)\x22\x27").lower()` applied to one raw match. -/
def stripLowerMatch (m : String) : String :=
  pyLower (rstripSet m ['.', ',', ';', ':', ')', '"', '\''])

/-- Lines 380-385: first-seen-order deduplication with a `seen` set. -/
def dedupFS (seen : List String) : List String → List String
  | [] => []
  | m :: ms => if seen.contains m then dedupFS seen ms else m :: dedupFS (m :: seen) ms

/-- Lines 375-393 of `get_doi`, after `PAT_DOI.findall`: normalize each match,
deduplicate preserving first-seen order, then keep only matches that no other
deduplicated match strictly extends. -/
def get_doi_from_matches (raw : List String) : List String :=
  let ms := raw.map stripLowerMatch
  let deduped := dedupFS [] ms
  deduped.filter (fun m => !(deduped.any (fun o => (o != m) && pyStartsWith o m)))

theorem mem_dedupFS {x : String} {seen l : List String} :
    x ∈ dedupFS seen l ↔ x ∈ l ∧ x ∉ seen := by
  induction l generalizing seen with
  | nil => simp [dedupFS]
  | cons m ms ih =>
    simp only [dedupFS]
    split
    · rename_i hm
      rw [List.contains, List.elem_iff] at hm
      rw [ih]
      constructor
      · rintro ⟨h1, h2⟩
        exact ⟨List.mem_cons_of_mem _ h1, h2⟩
      · rintro ⟨h1, h2⟩
        rcases List.mem_cons.1 h1 with rfl | h1
        · exact absurd hm h2
        · exact ⟨h1, h2⟩
    · rename_i hm
      rw [List.contains, List.elem_iff] at hm
      simp only [List.mem_cons, ih, List.mem_cons, not_or]
      constructor
      · rintro (rfl | ⟨h1, h2, h3⟩)
        · exact ⟨Or.inl rfl, hm⟩
        · exact ⟨Or.inr h1, h3⟩
      · rintro ⟨rfl | h1, h2⟩
        · exact Or.inl rfl
        · by_cases hx : x = m
          · exact Or.inl hx
          · exact Or.inr ⟨h1, hx, h2⟩

theorem nodup_dedupFS {seen l : List String} : (dedupFS seen l).Nodup := by
  induction l generalizing seen with
  | nil => simp [dedupFS]
  | cons m ms ih =>
    simp only [dedupFS]
    split
    · exact ih
    · refine List.nodup_cons.2 ⟨fun hc => ?_, ih⟩
      exact (mem_dedupFS.1 hc).2 (List.mem_cons_self _ _)

theorem dedupFS_sublist {seen : List String} : ∀ l : List String, (dedupFS seen l).Sublist l := by
  intro l
  induction l generalizing seen with
  | nil => simp [dedupFS]
  | cons m ms ih =>
    simp only [dedupFS]
    split
    · exact (ih).cons m
    · exact (ih).cons₂ m

theorem pyStartsWith_iff {s pre : String} :
    pyStartsWith s pre = true ↔ pre.data <+: s.data := by
  simp [pyStartsWith]

theorem string_eq_of_data {a b : String} (h : a.data = b.data) : a = b := by
  cases a; cases b; exact congrArg String.mk h

theorem pyStartsWith_trans {a b c : String} (h1 : pyStartsWith b a = true)
    (h2 : pyStartsWith c b = true) : pyStartsWith c a = true :=
  pyStartsWith_iff.2 ((pyStartsWith_iff.1 h1).trans (pyStartsWith_iff.1 h2))

theorem pyStartsWith_length_lt {a b : String} (h : pyStartsWith b a = true)
    (hne : a ≠ b) : a.data.length < b.data.length := by
  have hp := pyStartsWith_iff.1 h
  rcases lt_or_eq_of_le hp.length_le with hlt | heq
  · exact hlt
  · exact absurd (string_eq_of_data (hp.eq_of_length heq)) hne

/-- If some element of `D` strictly extends `m`, then some element of `D`
surviving the truncation filter strictly extends `m` (take an extension of
maximal length: nothing can strictly extend it, so it survives). -/
theorem exists_surviving_extension {D : List String} {m : String}
    (h : ∃ o ∈ D, o ≠ m ∧ pyStartsWith o m = true) :
    ∃ o ∈ D.filter (fun x => !(D.any (fun o2 => (o2 != x) && pyStartsWith o2 x))),
      o ≠ m ∧ pyStartsWith o m = true := by
  obtain ⟨o0, ho0D, ho0⟩ := h
  set S := D.filter (fun o => decide (o ≠ m) && pyStartsWith o m) with hSdef
  have ho0S : o0 ∈ S := by
    rw [hSdef, List.mem_filter]
    exact ⟨ho0D, by simp [ho0.1, ho0.2]⟩
  have hSne : S ≠ [] := fun hc => by rw [hc] at ho0S; cases ho0S
  obtain ⟨q, hq⟩ : ∃ q, q ∈ S.argmax (fun s => s.data.length) := by
    cases hargq : S.argmax (fun s => s.data.length) with
    | none => exact absurd (List.argmax_eq_none.1 hargq) hSne
    | some q => exact ⟨q, rfl⟩
  have hqS : q ∈ S := List.argmax_mem hq
  have hqD : q ∈ D := List.mem_of_mem_filter hqS
  have hqm : q ≠ m ∧ pyStartsWith q m = true := by
    have := (List.mem_filter.1 hqS).2
    simpa using this
  refine ⟨q, ?_, hqm⟩
  rw [List.mem_filter]
  refine ⟨hqD, ?_⟩
  rw [Bool.not_eq_true', List.any_eq_false]
  intro z hzD hcontra
  simp only [Bool.and_eq_true, bne_iff_ne] at hcontra
  obtain ⟨hzq, hzpsw⟩ := hcontra
  have hlen_qz : q.data.length < z.data.length :=
    pyStartsWith_length_lt hzpsw (fun hc => hzq hc.symm)
  have hlen_mq : m.data.length < q.data.length :=
    pyStartsWith_length_lt hqm.2 (fun hc => hqm.1 hc.symm)
  have hzm : pyStartsWith z m = true := pyStartsWith_trans hqm.2 hzpsw
  have hzne : z ≠ m := fun hc => by
    rw [hc] at hlen_qz
    omega
  have hzS : z ∈ S := by
    rw [hSdef, List.mem_filter]
    exact ⟨hzD, by simp [hzne, hzm]⟩
  have := List.le_of_mem_argmax hzS hq
  simp only [ge_iff_le] at this
  omega

/-- C8: `get_doi` deduplicates the normalized matches preserving first-seen
order (the deduplicated list is a duplicate-free sublist of the normalized
matches with the same members), and a match survives iff no other surviving
match strictly extends it; in particular the raw matches
`["10.1000/abc", "10.1000/ab"]` finalize to `["10.1000/abc"]`. -/
theorem get_doi_truncated_matches_dropped :
    (∀ ms : List String,
        (dedupFS [] (ms.map stripLowerMatch)).Nodup ∧
        (dedupFS [] (ms.map stripLowerMatch)).Sublist (ms.map stripLowerMatch) ∧
        (∀ x, x ∈ dedupFS [] (ms.map stripLowerMatch) ↔ x ∈ ms.map stripLowerMatch) ∧
        (∀ m, m ∈ get_doi_from_matches ms ↔
          m ∈ dedupFS [] (ms.map stripLowerMatch) ∧
          ¬ ∃ o ∈ get_doi_from_matches ms, o ≠ m ∧ pyStartsWith o m = true)) ∧
    get_doi_from_matches ["10.1000/abc", "10.1000/ab"] = ["10.1000/abc"] := by
  refine ⟨?_, by decide⟩
  intro ms
  refine ⟨nodup_dedupFS, dedupFS_sublist _, fun x => by simp [mem_dedupFS], fun m => ?_⟩
  constructor
  · intro hm
    have hmem := List.mem_filter.1 hm
    refine ⟨hmem.1, ?_⟩
    rintro ⟨o, hoF, hone, hopsw⟩
    have hoD : o ∈ dedupFS [] (ms.map stripLowerMatch) := (List.mem_filter.1 hoF).1
    have hpred := hmem.2
    rw [Bool.not_eq_true', List.any_eq_false] at hpred
    exact hpred o hoD (by simp [hone, hopsw])
  · rintro ⟨hmD, hno⟩
    rw [get_doi_from_matches, List.mem_filter]
    refine ⟨hmD, ?_⟩
    rw [Bool.not_eq_true', List.any_eq_false]
    intro z hzD hcontra
    simp only [Bool.and_eq_true, bne_iff_ne] at hcontra
    apply hno
    obtain ⟨o, hoF, ho⟩ := exists_surviving_extension ⟨z, hzD, hcontra⟩
    exact ⟨o, hoF, ho⟩

/-- Witness for C8: applying the characterization at the concrete input
`["10.1000/ab"]` shows the single normalized match survives. -/
theorem get_doi_truncated_matches_dropped_witness :
    "10.1000/ab" ∈ get_doi_from_matches ["10.1000/ab"] :=
  ((get_doi_truncated_matches_dropped.1 ["10.1000/ab"]).2.2.2 "10.1000/ab").mpr
    ⟨by decide, by decide⟩

/-! ## Workspace relative-output resolution: utils.py `get_output_dir_final`
(lines 74-98).  `pathlib.PurePosixPath` is modelled over strings: parsing
drops empty and `.` components; `str()` re-joins them. -/

/-- The path components of a POSIX path string (empty and `.` parts drop). -/
def pathComps (s : String) : List String :=
  ((splitOnChar '/' s.data).map String.mk).filter (fun c => c ≠ "" && c ≠ ".")

def pathIsAbs (s : String) : Bool := s.data.head? = some '/'

/-- `str(Path(s))` on POSIX. -/
def pathNorm (s : String) : String :=
  match pathComps s with
  | [] => if pathIsAbs s then "/" else "."
  | comps => (if pathIsAbs s then "/" else "") ++ String.intercalate "/" comps

/-- `Path(s).parent` on POSIX, as a string. -/
def pathParent (s : String) : String :=
  match pathComps s with
  | [] => if pathIsAbs s then "/" else "."
  | [_] => if pathIsAbs s then "/" else "."
  | comps => (if pathIsAbs s then "/" else "") ++
      String.intercalate "/" comps.dropLast

/-- `Path(a) / b` on POSIX, as a string (absolute `b` replaces `a`). -/
def pathJoin (a b : String) : String :=
  if pathIsAbs b then pathNorm b else pathNorm (a ++ "/" ++ b)

/-- First index in `hay` at which `needle` occurs as a contiguous run. -/
def findSub (needle : List Char) : List Char → Option Nat
  | [] => if needle.isPrefixOf ([] : List Char) then some 0 else none
  | c :: t =>
    if needle.isPrefixOf (c :: t) then some 0
    else (findSub needle t).map (· + 1)

/-- Python `input_str.split(prefix_str, 1)[1]`: the part of `hay` after the
first occurrence of `needle`, or `none` when `needle` does not occur
(`needle not in hay`). -/
def splitAfterFirst (hay needle : List Char) : Option (List Char) :=
  (findSub needle hay).map (fun i => hay.drop (i + needle.length))

/-- Drop characters of `set` from both ends (Python `str.strip(chars)`). -/
def stripEnds (cs : List Char) (set : List Char) : List Char :=
  ((cs.dropWhile (set.contains ·)).reverse.dropWhile (set.contains ·)).reverse

/-- utils.py `get_output_dir_final(output_dir, input_pdf, input_path_prefix)`.
`input_pdf` arrives as a `Path`, so its string form is taken normalized; a
missing or empty marker (`if not input_path_prefix`) passes `output_dir`
through.  The `mkdir` side effect is not modelled (the claim is about the
returned path). -/
def get_output_dir_final (output_dir : String) (input_pdf : String)
    (input_path_marker : Option String) : Except String String :=
  match input_path_marker with
  | none => .ok output_dir
  | some p =>
    if p = "" then .ok output_dir
    else
      let input_str := pathNorm input_pdf
      let marker_str := pathNorm p
      match splitAfterFirst input_str.data marker_str.data with
      | none =>
        .error ("Input path prefix " ++ marker_str ++
          " not found in input file path " ++ input_str)
      | some after =>
        let rel := pathParent (String.mk (stripEnds (stripEnds after ['/']) ['\\']))
        .ok (pathJoin output_dir rel)

/-- C9: relative-output resolution takes the portion of the input path after
the first occurrence of the marker, takes its parent directory and nests it
under the base output directory — input `/data/in/2024/doc.pdf` with marker
`/data/in` and base `/out` yields `/out/2024` — and fails with a
configuration error whenever the marker does not occur in the input path. -/
theorem get_output_dir_final_spec :
    get_output_dir_final "/out" "/data/in/2024/doc.pdf" (some "/data/in") =
      Except.ok "/out/2024" ∧
    ∀ (out inp p : String), p ≠ "" →
      findSub (pathNorm p).data (pathNorm inp).data = none →
      get_output_dir_final out inp (some p) =
        Except.error ("Input path prefix " ++ pathNorm p ++
          " not found in input file path " ++ pathNorm inp) := by
  refine ⟨by decide, ?_⟩
  intro out inp p hp hfind
  simp [get_output_dir_final, hp, splitAfterFirst, hfind]

/-- Witness for C9's error branch: marker `/other` does not occur in
`/data/in/doc.pdf`. -/
theorem get_output_dir_final_spec_witness :
    get_output_dir_final "/out" "/data/in/doc.pdf" (some "/other") =
      Except.error
        "Input path prefix /other not found in input file path /data/in/doc.pdf" :=
  get_output_dir_final_spec.2 "/out" "/data/in/doc.pdf" "/other"
    (by decide) (by decide)

/-! ## Raster export stage: pipeline.py `export_images` (lines 171-188) and
utils.py `clear_dir` (lines 242-251).  The output directory is modelled as
`none` when absent and otherwise as the list of plain files it holds
(`clear_dir` unlinks only plain files; subdirectories are not modelled). -/

/-- utils.py `clear_dir`: removes every plain file of an existing directory;
no-op when the directory does not exist. -/
def clear_dir (d : Option (List String)) : Option (List String) :=
  match d with
  | none => none
  | some _ => some []

/-- Python `str(i).zfill(3)` for the nonnegative page counter. -/
def zfill3 (s : String) : String :=
  String.mk (List.replicate (3 - s.length) '0') ++ s

/-- The page file name `page_{str(i).zfill(3)}.{fext}`. -/
def pageFileName (i : Nat) (fext : String) : String :=
  "page_" ++ zfill3 (toString i) ++ "." ++ fext

/-- pipeline.py `export_images(pdf_path, out_dir, dpi, fext)`.  The source PDF
is modelled by its existence flag and page count; the DPI only affects pixel
data, which is not modelled.  Note the order of operations in the source: the
output directory is cleared and created BEFORE the `pdf_path.exists()`
check. -/
def export_images (pdf_exists : Bool) (num_pages : Nat) (fext : String)
    (out_dir : Option (List String)) : Option (List String) :=
  let d := match out_dir with
           | some files => clear_dir (some files)
           | none => none
  let d := some (d.getD [])
  if !pdf_exists then d
  else some ((List.range num_pages).map (fun i => pageFileName (i + 1) fext))

/-- C6 counterexample: with a non-existent source PDF, `export_images` does
NOT leave the output directory's existing contents unchanged — the stale file
is removed before the existence check returns. -/
theorem export_images_missing_pdf_clears_dir :
    export_images false 0 "png" (some ["page_001.png"]) ≠
      some ["page_001.png"] := by
  decide

/-- C6 amended: when the source PDF does not exist, `export_images` first
clears the output directory (removing its plain files) and creates it if
absent, and only then returns without exporting any page; the result is an
existing empty directory, whatever it held before. -/
theorem export_images_missing_pdf_spec :
    ∀ (n : Nat) (fext : String) (files : List String),
      export_images false n fext (some files) = some [] ∧
      export_images false n fext none = some [] := by
  intro n fext files
  constructor <;> rfl

/-- Witness for C6's amended behaviour at a concrete stale directory. -/
theorem export_images_missing_pdf_spec_witness :
    export_images false 7 "png" (some ["page_001.png", "page_002.png"]) =
      some [] :=
  (export_images_missing_pdf_spec 7 "png" ["page_001.png", "page_002.png"]).1

/-! ## Page extraction/skip stage: pipeline.py `extract_pages` (lines 39-74,
duplicated in utils.py lines 143-178) and its invocation on the post-OCR skip
path, pipeline.py lines 408-411 (`extract_pages(output_pdf, output_pdf,
pages_to_skip=...)`).  The filesystem is a map from path strings to file
contents; a PDF file is the list of its page objects.  `save_completes`
models whether `new_pdf.save(output_pdf)` runs to completion: the source
saves straight at `output_pdf` — there is no temporary file and no rename —
so an interrupted save leaves a truncated file at that very path. -/

inductive FileData where
  | pdfDoc (pages : List Nat) : FileData
  | truncated : FileData
deriving DecidableEq

abbrev Fs := String → Option FileData

def setFile (fs : Fs) (p : String) (d : FileData) : Fs :=
  fun q => if q = p then some d else fs q

/-- The page-selection loop (`for i, page in enumerate(pdf.pages)` with
0-based keep/skip lists; the keep list is honored when non-empty, else the
skip list). -/
def selectPages (pages : List Nat) (keep skip : List Int) : List Nat :=
  ((pages.enum).filter (fun ip =>
      if !keep.isEmpty then keep.contains ((ip.1 : Int))
      else !(skip.contains ((ip.1 : Int))))).map (fun ip => ip.2)

/-- pipeline.py `extract_pages(input_pdf, output_pdf, pages_to_keep,
pages_to_skip, zero_based)`.  Returns the raised message (if any) and the
resulting filesystem.  Empty lists model Python `None`/`[]` (both falsy). -/
def extract_pages (fs : Fs) (input_pdf output_pdf : String)
    (pages_to_keep pages_to_skip : List Int) (zero_based : Bool)
    (save_completes : Bool) : Option String × Fs :=
  if pages_to_keep.isEmpty && pages_to_skip.isEmpty then (none, fs)
  else
    let keep := if !zero_based && !pages_to_keep.isEmpty then
        pages_to_keep.map (fun p => p - 1) else pages_to_keep
    let skip := if !zero_based && !pages_to_skip.isEmpty then
        pages_to_skip.map (fun p => p - 1) else pages_to_skip
    match fs input_pdf with
    | some (.pdfDoc pages) =>
      if save_completes then
        (none, setFile fs output_pdf (.pdfDoc (selectPages pages keep skip)))
      else
        ("Failed to extract pages: save interrupted",
          setFile fs output_pdf .truncated)
    | _ => ("Failed to extract pages: cannot open input", fs)

/-- C2 counterexample: the skip stage calls `extract_pages` with
`output_pdf = input_pdf`.  With the input holding pages `[10, 20, 30]` and the
save interrupted mid-write, the input path afterwards holds a truncated file —
the original is NOT left intact, because the save writes directly to the
output path with no temporary file and no post-success swap. -/
theorem extract_pages_failed_save_corrupts_input :
    (extract_pages
        (setFile (fun _ => none) "a.pdf" (.pdfDoc [10, 20, 30]))
        "a.pdf" "a.pdf" [] [2] false false).2 "a.pdf" =
      some FileData.truncated ∧
    (setFile (fun _ => none) "a.pdf" (.pdfDoc [10, 20, 30])) "a.pdf" =
      some (FileData.pdfDoc [10, 20, 30]) := by
  constructor <;> rfl

/-- C2 amended: `extract_pages` saves the new document directly at the output
path (no temporary file, no swap).  When the output path equals the input
path — as the post-OCR skip stage invokes it — a completed save replaces the
input in place with the selected pages, and an interrupted save leaves a
truncated file at that path instead of the original. -/
theorem extract_pages_saves_in_place :
    ∀ (fs : Fs) (path : String) (pages : List Nat) (keep skip : List Int),
      fs path = some (.pdfDoc pages) →
      (keep.isEmpty && skip.isEmpty) = false →
      (extract_pages fs path path keep skip false true).2 path =
        some (.pdfDoc (selectPages pages
          (if !keep.isEmpty then keep.map (fun p => p - 1) else keep)
          (if !skip.isEmpty then skip.map (fun p => p - 1) else skip))) ∧
      (extract_pages fs path path keep skip false false).2 path =
        some FileData.truncated := by
  intro fs path pages keep skip hin hne
  simp [extract_pages, hne, hin, setFile]

/-- Witness for C2's amended theorem: skip page 2 of `[10, 20, 30]` in place;
a completed save leaves `[10, 30]`, an interrupted one a truncated file. -/
theorem extract_pages_saves_in_place_witness :
    (extract_pages
        (setFile (fun _ => none) "b.pdf" (.pdfDoc [10, 20, 30]))
        "b.pdf" "b.pdf" [] [2] false true).2 "b.pdf" =
      some (FileData.pdfDoc [10, 30]) ∧
    (extract_pages
        (setFile (fun _ => none) "b.pdf" (.pdfDoc [10, 20, 30]))
        "b.pdf" "b.pdf" [] [2] false false).2 "b.pdf" =
      some FileData.truncated := by
  have h := extract_pages_saves_in_place
    (setFile (fun _ => none) "b.pdf" (.pdfDoc [10, 20, 30]))
    "b.pdf" [10, 20, 30] [] [2] (by decide) (by decide)
  exact ⟨by rw [h.1]; decide, h.2⟩

/-! ## OCR stage option plumbing: pipeline.py `run_ocr` (lines 77-102),
`run_ocrmypdf` (lines 123-168), unpaper_run.py `get_unpaper_args`
(lines 14-44), utils.py `correct_images_orientation` (lines 268-288), and the
scan branch of `process_pdf` (lines 290-400). -/

/-- A Python value that is either the bool `True` (set when `pre_rotate` is
truthy) or the int returned by `correct_images_orientation`; only its
truthiness is consumed (`if rotated:`). -/
inductive PyRot where
  | ofBool (b : Bool) : PyRot
  | ofInt (n : Int) : PyRot
deriving DecidableEq

def PyRot.truthy : PyRot → Bool
  | .ofBool b => b
  | .ofInt n => n != 0

/-- Python truthiness of an optional string (`None` and `""` are falsy). -/
def pyOptStrTruthy : Option String → Bool
  | none => false
  | some s => !s.isEmpty

/-- Python truthiness of an optional int (`None` and `0` are falsy). -/
def pyOptIntTruthy : Option Int → Bool
  | none => false
  | some n => n != 0

/-- utils.py `correct_images_orientation`: detects each image's OSD rotation
angle, rotates non-zero ones in place, and returns the COUNT of rotated
images (`rotated_count`, despite the docstring promising a bool).  Each image
is modelled by its detected rotation angle. -/
def correct_images_orientation (osd_angles : List Int) : Int :=
  osd_angles.foldl (fun acc a => if a != 0 then acc + 1 else acc) 0

/-- unpaper_run.py `get_unpaper_args(layout, output_pages, pre_rotate, full)`
(the `as_string` variant joins with spaces, below). -/
def get_unpaper_args (layout : Option String) (output_pages : Option String)
    (pre_rotate : Option Int) (full : Bool) : List String :=
  (if full then
      ["--mask-scan-size", "100", "--no-border-align", "--no-mask-center",
        "--no-grayfilter", "--no-blackfilter"]
    else []) ++
  (match layout with
   | some l => ["--layout", l]
   | none => []) ++
  (match pre_rotate with
   | some r => ["--pre-rotate", toString r]
   | none => []) ++
  (if output_pages = some "1" || output_pages = some "2" then
      ["--output-pages", output_pages.getD ""]
    else [])

/-- The keyword arguments `run_ocrmypdf` passes to `ocrmypdf.ocr`
(pipeline.py lines 152-168). -/
structure OcrmypdfOptions where
  language : String
  force_ocr : Bool
  unpaper_args : String
  rotate_pages : Bool
  optimize : Nat
  deskew : Bool
  clean : Bool
  clean_final : Bool
  output_type : String
  keep_temporary_files : Bool
deriving DecidableEq

/-- pipeline.py `run_ocrmypdf(input_pdf, output_pdf, lang, layout,
output_pages, rotated, clean_flag=True, debug_flag=False)`: the option record
handed to the whole-document backend.  `clean_flag` keeps its source default
`True` at the single call site (`run_ocr` does not pass it). -/
def run_ocrmypdf (lang : String) (layout : Option String)
    (output_pages : Option String) (rotated : PyRot) (clean_flag : Bool)
    (debug_flag : Bool) : OcrmypdfOptions :=
  let keep_temporary_files := debug_flag
  let layout1 := if layout = some "none" then none else layout
  let layout2 := if pyOptStrTruthy output_pages then none else layout1
  let unpaper_args :=
    String.intercalate " " (get_unpaper_args layout2 none none false)
  let rotate_pages := !rotated.truthy
  { language := lang, force_ocr := true, unpaper_args := unpaper_args,
    rotate_pages := rotate_pages, optimize := 3, deskew := true,
    clean := clean_flag, clean_final := clean_flag,
    output_type := "pdf", keep_temporary_files := keep_temporary_files }

/-- pipeline.py `run_ocr`: only the `ocrlib == "ocrmypdf"` branch invokes the
whole-document backend; it passes `clean_flag` by omission, so the default
`True` always applies.  The `pymupdf` and copy branches produce no
whole-document options. -/
def run_ocr (ocrlib : Option String) (lang : String)
    (layout output_pages : Option String) (rotated : PyRot)
    (debug_flag : Bool) : Option OcrmypdfOptions :=
  if ocrlib = some "ocrmypdf" then
    some (run_ocrmypdf lang layout output_pages rotated true debug_flag)
  else none

/-- The `rotated` value computed in the scan branch of `process_pdf`
(lines 311-314): the bool `True` when `pre_rotate` is truthy, otherwise the
count returned by `correct_images_orientation`. -/
def scan_rotated (pre_rotate : Option Int) (osd_angles : List Int) : PyRot :=
  if pyOptIntTruthy pre_rotate then .ofBool true
  else .ofInt (correct_images_orientation osd_angles)

/-- The OCR invocation of `process_pdf` step 3 (lines 389-400).
`has_images` records whether the external cleanup filter (unpaper) produced
any output image (lines 365-386); it selects only which pages `tmp_pdf`
holds (reassembled cleaned images versus raw rasters) and does not appear in
the `run_ocr` call, which is textually identical on both paths. -/
def process_pdf_scan_ocr (has_images : Bool) (ocrlib : Option String)
    (lang : String) (layout output_pages : Option String)
    (pre_rotate : Option Int) (osd_angles : List Int) (debug_flag : Bool) :
    Option OcrmypdfOptions :=
  run_ocr ocrlib lang layout output_pages (scan_rotated pre_rotate osd_angles)
    debug_flag

/-- C1 counterexample: a degraded run in which the cleanup filter produced no
output (`has_images = false`, i.e. unpaper never ran or failed on every
image) still gets `clean = True` and `clean_final = True` from the
whole-document backend — the options are enabled although the filter did not
run upstream. -/
theorem ocr_clean_enabled_without_filter :
    (process_pdf_scan_ocr false (some "ocrmypdf") "eng" none none none []
        false).map (fun o => (o.clean, o.clean_final)) =
      some (true, true) := by
  decide

/-- C1 amended: the whole-document backend always enables its cleanup and
clean-final options — `clean_flag` defaults to `True` and `run_ocr` never
overrides it — irrespective of whether the external cleanup filter ran
upstream (`has_images`), of caller-requested background removal (which does
not reach `run_ocr` at all), and of layout shaping. -/
theorem ocr_clean_always_enabled :
    ∀ (has_images : Bool) (ocrlib : Option String) (lang : String)
      (layout output_pages : Option String) (pre_rotate : Option Int)
      (osd_angles : List Int) (debug_flag : Bool) (o : OcrmypdfOptions),
      process_pdf_scan_ocr has_images ocrlib lang layout output_pages
          pre_rotate osd_angles debug_flag = some o →
      o.clean = true ∧ o.clean_final = true := by
  intro has_images ocrlib lang layout output_pages pre_rotate osd_angles
    debug_flag o h
  simp only [process_pdf_scan_ocr, run_ocr] at h
  split at h
  · cases h
    exact ⟨rfl, rfl⟩
  · cases h

/-- Witness for C1's amended theorem at a concrete degraded-mode argument
vector. -/
theorem ocr_clean_always_enabled_witness :
    (run_ocrmypdf "eng" none none (scan_rotated none []) true false).clean =
        true ∧
      (run_ocrmypdf "eng" none none (scan_rotated none []) true
          false).clean_final = true :=
  ocr_clean_always_enabled false (some "ocrmypdf") "eng" none none none []
    false _ rfl

/-- C7: the whole-document backend enables page auto-rotation iff the scan
cleanup stage rotated nothing — no truthy explicit pre-rotate angle and a
zero count from the per-image orientation correction.  Whenever any image was
rotated upstream (either mechanism), `rotate_pages` is disabled. -/
theorem ocr_rotate_pages_iff_not_rotated :
    ∀ (lang : String) (layout output_pages : Option String)
      (pre_rotate : Option Int) (osd_angles : List Int)
      (clean_flag debug_flag : Bool),
      (run_ocrmypdf lang layout output_pages
          (scan_rotated pre_rotate osd_angles) clean_flag
          debug_flag).rotate_pages = true ↔
        (pyOptIntTruthy pre_rotate = false ∧
          correct_images_orientation osd_angles = 0) := by
  intro lang layout output_pages pre_rotate osd_angles clean_flag debug_flag
  simp only [run_ocrmypdf, scan_rotated]
  by_cases hpre : pyOptIntTruthy pre_rotate
  · simp [hpre, PyRot.truthy]
  · simp only [hpre, if_false, Bool.false_eq_true]
    simp [PyRot.truthy, hpre]

/-- Witness for C7: with no pre-rotate angle and no image rotated by the
orientation pass (all OSD angles zero), auto-rotation is enabled. -/
theorem ocr_rotate_pages_iff_not_rotated_witness :
    (run_ocrmypdf "eng" none none (scan_rotated none [0, 0]) true
        false).rotate_pages = true :=
  (ocr_rotate_pages_iff_not_rotated "eng" none none none [0, 0] true
      false).mpr (by decide)

end PdfWtf
